import Mathlib

/-!
Verification of the taucmdr data-model / record-controller layer.

The definitions below are a shallow embedding of the Python sources under
`packages/tau` and `packages/taucmdr`:

* `JsonDatabase.*`   — `packages/tau/core/database.py` (`JsonDatabase` over TinyDB)
* transaction scope  — `JsonDatabase.__enter__` / `JsonDatabase.__exit__`
* `next_trial_number` — `packages/taucmdr/model/experiment.py` (`Experiment.next_trial_number`,
  identical algorithm to `Trial._next_trial_number` in `packages/tau/model/trial.py`)
* `Experiment.verify` — `packages/taucmdr/model/experiment.py`
* `Trial.execute_command`, `TrialController.perform_interactive`, `TrialController.perform`
  — `packages/taucmdr/model/trial.py`
* `Application.on_update`, `Experiment.data_size` — `packages/tau/model/application.py`,
  `packages/taucmdr/model/experiment.py`
* `Measurement.onCreate` — `packages/tau/model/measurement.py`
* `Experiment.trials` — `packages/taucmdr/model/experiment.py`

Machine integers are modeled as `Int` (Python integers are unbounded), JSON
field values as a small `Value` type, and Python exceptions as `Except`
errors.  TinyDB (a third-party dependency) is modeled through the behavior
the source relies on: per-table lists of records with integer element ids,
where every table operation reads the persisted file and writes it back.
-/

deriving instance DecidableEq for Except

/-- A JSON-like field value stored in a record. -/
inductive Value
  | vstr (s : String)
  | vint (n : Int)
  | vbool (b : Bool)
deriving DecidableEq, Repr

/-- An ordered field mapping, the payload of a record (a Python `dict`). -/
abbrev Fields := List (String × Value)

/-- A database record: element id plus field mapping (`Record` in database.py). -/
structure Record where
  eid : Int
  fields : Fields
deriving DecidableEq, Repr

/-- A named table is a list of records. -/
abbrev Table := List Record

/-- The persisted database file: tables by name. -/
abbrev Database := List (String × Table)

/-- Python dict lookup on a field mapping. -/
def fieldGet (fs : Fields) (k : String) : Option Value :=
  (fs.find? (fun kv => kv.1 = k)).map (fun kv => kv.2)

/-- Set one field of a mapping (Python dict assignment). -/
def setField (fs : Fields) (k : String) (v : Value) : Fields :=
  if (fs.find? (fun kv => kv.1 = k)).isSome then
    fs.map (fun kv => if kv.1 = k then (k, v) else kv)
  else
    fs ++ [(k, v)]

/-- Merge new fields into a mapping (TinyDB `table.update(fields, ...)`). -/
def setFields (fs new : Fields) : Fields :=
  new.foldl (fun acc kv => setField acc kv.1 kv.2) fs

/-- Remove one field from a mapping (`tinydb.operations.delete`). -/
def removeField (fs : Fields) (k : String) : Fields :=
  fs.filter (fun kv => kv.1 ≠ k)

/-- The query built by `JsonDatabase._query`: an AND (or, with `match_any`,
an OR) of field equalities.  `_query` is only reachable with a non-empty
mapping; emptiness is handled at each call site. -/
def matchesQuery (km : Fields) (matchAny : Bool) (r : Record) : Bool :=
  if matchAny then
    km.any (fun kv => fieldGet r.fields kv.1 = some kv.2)
  else
    km.all (fun kv => fieldGet r.fields kv.1 = some kv.2)

/-- The duck-typed `keys` argument of the storage operations: absent
(`None`), a single element id, a list of element ids, or a field-equality
mapping. -/
inductive Keys
  | noKeys
  | byEid (n : Int)
  | byEids (l : List Int)
  | byFields (km : Fields)
deriving DecidableEq, Repr

/-- Python exceptions that escape the storage operations. -/
inductive DbErr
  | assertionFailed
  | stopIteration
  | attributeError
deriving DecidableEq, Repr

/-- Get a table from the database file, creating it empty on demand
(TinyDB `database.table(name)`). -/
def tableOf (db : Database) (name : String) : Table :=
  ((db.find? (fun nt => nt.1 = name)).map (fun nt => nt.2)).getD []

/-- Write a table back into the database file. -/
def setTable (db : Database) (name : String) (tbl : Table) : Database :=
  if (db.find? (fun nt => nt.1 = name)).isSome then
    db.map (fun nt => if nt.1 = name then (name, tbl) else nt)
  else
    db ++ [(name, tbl)]

/-- Next element id allocated by TinyDB on insert (monotonically increasing). -/
def nextEid (tbl : Table) : Int :=
  (tbl.map (fun r => r.eid)).foldl max 0 + 1

/-- Source `JsonDatabase.get` (database.py): `int(keys)` succeeds only for a single
id; otherwise the code asserts `isinstance(keys, dict)`, so `None` and a
list raise `AssertionError`, and an empty mapping makes `_query` raise
`StopIteration`. -/
def JsonDatabase.get (tbl : Table) (keys : Keys) (matchAny : Bool) :
    Except DbErr (Option Record) :=
  match keys with
  | .byEid n => .ok (tbl.find? (fun r => r.eid = n))
  | .byFields km =>
      if km.isEmpty then .error .stopIteration
      else .ok (tbl.find? (matchesQuery km matchAny))
  | .noKeys => .error .assertionFailed
  | .byEids _ => .error .assertionFailed

/-- Source `JsonDatabase.search` (database.py): `if keys:` — a falsy `keys`
(absent, empty mapping, id 0, empty list) returns all records; a truthy
non-mapping reaches `keys.iteritems()` and raises `AttributeError`. -/
def JsonDatabase.search (tbl : Table) (keys : Keys) (matchAny : Bool) :
    Except DbErr (List Record) :=
  match keys with
  | .noKeys => .ok tbl
  | .byFields km =>
      if km.isEmpty then .ok tbl
      else .ok (tbl.filter (matchesQuery km matchAny))
  | .byEid n => if n = 0 then .ok tbl else .error .attributeError
  | .byEids l => if l.isEmpty then .ok tbl else .error .attributeError

/-- Source `JsonDatabase.contains` (database.py): dispatches on id, id list, or
mapping; any other `keys` (in particular `None`) falls through to
`return False`. -/
def JsonDatabase.contains (tbl : Table) (keys : Keys) (matchAny : Bool) :
    Except DbErr Bool :=
  match keys with
  | .byEid n => .ok (tbl.any (fun r => r.eid = n))
  | .byEids l => .ok (tbl.any (fun r => l.contains r.eid))
  | .byFields km =>
      if km.isEmpty then .error .stopIteration
      else .ok (tbl.any (matchesQuery km matchAny))
  | .noKeys => .ok false

/-- Source `JsonDatabase.insert` (database.py): append a new record, returning it. -/
def JsonDatabase.insert (tbl : Table) (fields : Fields) : Table × Record :=
  let r : Record := ⟨nextEid tbl, fields⟩
  (tbl ++ [r], r)

/-- Source `JsonDatabase.update` (database.py): dispatches on id, id list, or
mapping; any other `keys` (in particular `None`) silently updates nothing. -/
def JsonDatabase.update (tbl : Table) (fields : Fields) (keys : Keys)
    (matchAny : Bool) : Except DbErr Table :=
  match keys with
  | .byEid n =>
      .ok (tbl.map (fun r => if r.eid = n then ⟨r.eid, setFields r.fields fields⟩ else r))
  | .byEids l =>
      .ok (tbl.map (fun r => if l.contains r.eid then ⟨r.eid, setFields r.fields fields⟩ else r))
  | .byFields km =>
      if km.isEmpty then .error .stopIteration
      else .ok (tbl.map (fun r => if matchesQuery km matchAny r then ⟨r.eid, setFields r.fields fields⟩ else r))
  | .noKeys => .ok tbl

/-- Source `JsonDatabase.unset` (database.py): remove the named fields from every
matching record; the `keys` dispatch is identical to `update`. -/
def JsonDatabase.unset (tbl : Table) (names : List String) (keys : Keys)
    (matchAny : Bool) : Except DbErr Table :=
  let strip := fun (r : Record) => Record.mk r.eid (names.foldl removeField r.fields)
  match keys with
  | .byEid n => .ok (tbl.map (fun r => if r.eid = n then strip r else r))
  | .byEids l => .ok (tbl.map (fun r => if l.contains r.eid then strip r else r))
  | .byFields km =>
      if km.isEmpty then .error .stopIteration
      else .ok (tbl.map (fun r => if matchesQuery km matchAny r then strip r else r))
  | .noKeys => .ok tbl

/-- Source `JsonDatabase.remove` (database.py): delete matching records; the
`keys` dispatch is identical to `update`. -/
def JsonDatabase.remove (tbl : Table) (keys : Keys) (matchAny : Bool) :
    Except DbErr Table :=
  match keys with
  | .byEid n => .ok (tbl.filter (fun r => r.eid ≠ n))
  | .byEids l => .ok (tbl.filter (fun r => ¬ l.contains r.eid))
  | .byFields km =>
      if km.isEmpty then .error .stopIteration
      else .ok (tbl.filter (fun r => ¬ matchesQuery km matchAny r))
  | .noKeys => .ok tbl

/-- Source `JsonDatabase.purge` (database.py): delete all records. -/
def JsonDatabase.purge (_tbl : Table) : Table := []

/-!
### Transactional scope (`JsonDatabase.__enter__` / `__exit__`)

TinyDB with `JSONStorage` writes the file through on every table
operation, so the persisted file is modeled directly by `disk`.
`__enter__` snapshots the file into memory when the transaction count is
zero; `__exit__` decrements the count and, when an exception is active and
the count has returned to zero, writes the snapshot back.
-/

/-- The state of a `JsonDatabase`: the persisted file, the transaction
depth counter, and the in-memory snapshot taken at outermost entry. -/
structure DBState where
  disk : Database
  transaction_count : Int
  db_copy : Option Database
deriving DecidableEq, Repr

/-- Source `JsonDatabase.__enter__`: snapshot the file at depth zero, then
increment the depth counter. -/
def JsonDatabase.enterScope (s : DBState) : DBState :=
  ⟨s.disk,
   s.transaction_count + 1,
   if s.transaction_count = 0 then some s.disk else s.db_copy⟩

/-- Source `JsonDatabase.exitScope` (`__exit__`): decrement the depth counter;
if an exception is active (`ex`) and the counter has returned to zero,
write the snapshot back to the file and drop it.  (The source protocol
guarantees the snapshot is present at that point; a missing snapshot
leaves the file unchanged.) -/
def JsonDatabase.exitScope (ex : Bool) (s : DBState) : DBState :=
  let c := s.transaction_count - 1
  if ex ∧ c = 0 then
    ⟨s.db_copy.getD s.disk, c, none⟩
  else
    ⟨s.disk, c, s.db_copy⟩

/-- Run a table-transforming operation against the persisted file.  A
query-construction exception (modeled by the `Except` error) propagates
before anything is written, leaving the file untouched. -/
def applyTable (db : Database) (name : String)
    (f : Table → Except DbErr Table) : Database :=
  match f (tableOf db name) with
  | .ok tbl => setTable db name tbl
  | .error _ => db

/-- One storage operation issued against a `JsonDatabase`, possibly inside
a transactional scope. -/
inductive TxOp
  | enter
  | exit (ex : Bool)
  | insert (table : String) (fields : Fields)
  | update (table : String) (fields : Fields) (keys : Keys) (matchAny : Bool)
  | unset (table : String) (names : List String) (keys : Keys) (matchAny : Bool)
  | remove (table : String) (keys : Keys) (matchAny : Bool)
  | purge (table : String)
deriving DecidableEq, Repr

/-- Step the database state by one operation.  Every write operation goes
straight through to the persisted file, exactly as TinyDB does. -/
def txStep (s : DBState) : TxOp → DBState
  | .enter => JsonDatabase.enterScope s
  | .exit ex => JsonDatabase.exitScope ex s
  | .insert t fs =>
      ⟨setTable s.disk t (JsonDatabase.insert (tableOf s.disk t) fs).1,
       s.transaction_count, s.db_copy⟩
  | .update t fs k ma =>
      ⟨applyTable s.disk t (fun tbl => JsonDatabase.update tbl fs k ma),
       s.transaction_count, s.db_copy⟩
  | .unset t ns k ma =>
      ⟨applyTable s.disk t (fun tbl => JsonDatabase.unset tbl ns k ma),
       s.transaction_count, s.db_copy⟩
  | .remove t k ma =>
      ⟨applyTable s.disk t (fun tbl => JsonDatabase.remove tbl k ma),
       s.transaction_count, s.db_copy⟩
  | .purge t =>
      ⟨setTable s.disk t (JsonDatabase.purge (tableOf s.disk t)),
       s.transaction_count, s.db_copy⟩

/-- Run a sequence of operations. -/
def runTx (s : DBState) (ops : List TxOp) : DBState :=
  ops.foldl txStep s

/-- Predicate `innerOps d ops` holds when `ops` stays strictly inside a scope opened
at depth `d`: nested exits never leave the scope, and the sequence ends
back at depth 1 (just before the outermost exit). -/
def innerOps : Int → List TxOp → Bool
  | d, [] => d == 1
  | d, TxOp.enter :: rest => innerOps (d + 1) rest
  | d, TxOp.exit _ :: rest => decide (2 ≤ d) && innerOps (d - 1) rest
  | d, _ :: rest => innerOps d rest

/-!
### Trial numbering (`Experiment.next_trial_number` / `Trial._next_trial_number`)
-/

/-- The scan inside `next_trial_number`: compare each enumerated index with
the sorted trial numbers and return the first index where they differ;
if none differs the loop falls through and returns the length, which equals
the running index. -/
def findGap : Int → List Int → Int
  | i, [] => i
  | i, j :: rest => if i ≠ j then i else findGap (i + 1) rest

/-- Source `Experiment.next_trial_number` (experiment.py): enumerate the sorted
numbers of the sibling trials and return the first index not matching its
value, else the number of trials. -/
def next_trial_number (numbers : List Int) : Int :=
  findGap 0 (numbers.insertionSort (fun a b => a ≤ b))

/-!
### Compatibility verification (`Experiment.verify`)

The membership loop and the pairwise loop are translated from
`Experiment.verify` in `packages/taucmdr/model/experiment.py`.  The
per-pair rule evaluation lives in the mvc `Model.check_compatibility`,
which is not among the provided sources, so it is modeled from the spec.
-/

/-- The kind of entity a compatibility rule addresses. -/
inductive EntityKind
  | target
  | application
  | measurement
deriving DecidableEq, Repr

/-- The severity of a compatibility rule outcome. -/
inductive Requisite
  | required
  | recommended
  | encouraged
  | violation
deriving DecidableEq, Repr

/-- Modelled from the spec: a compatibility rule attached to one attribute
of an entity — when the owner's attribute has the trigger value, the rule
constrains the named attribute of a counterpart entity of the given kind
(optionally to a specific value) with the given severity. -/
structure CompatRule where
  trigger_attr : String
  trigger_val : Value
  counterpart : EntityKind
  counter_attr : String
  counter_val : Option Value
  req : Requisite
deriving DecidableEq, Repr

/-- A populated entity record as seen by `Experiment.verify`: element id,
name, the `projects` relationship, the attribute payload, and the compat
rules declared by its attribute schema. -/
structure Entity where
  eid : Int
  kind : EntityKind
  name : String
  projects : List Int
  attrs : Fields
  rules : List CompatRule
deriving DecidableEq, Repr

/-- A rule fires when the owner's trigger attribute has the trigger value
and the counterpart entity has the kind the rule addresses. -/
def ruleApplies (lhs rhs : Entity) (r : CompatRule) : Bool :=
  fieldGet lhs.attrs r.trigger_attr = some r.trigger_val ∧ rhs.kind = r.counterpart

/-- Whether the counterpart attribute condition of a rule holds: the
attribute is present and, when a value is specified, equal to it. -/
def counterpartSatisfied (rhs : Entity) (r : CompatRule) : Bool :=
  match fieldGet rhs.attrs r.counter_attr, r.counter_val with
  | some v, some w => v = w
  | some _, none => true
  | none, _ => false

/-- Modelled from the spec: evaluating one compat rule against a
counterpart yields its severity when unmet — a `violation` rule is unmet
when the forbidden counterpart condition holds, every other severity when
the counterpart condition fails — and nothing when met or not applicable. -/
def evalRule (lhs rhs : Entity) (r : CompatRule) : Option Requisite :=
  if ruleApplies lhs rhs r then
    match r.req with
    | .violation => if counterpartSatisfied rhs r then some .violation else none
    | sev => if counterpartSatisfied rhs r then none else some sev
  else none

/-- A pair of entities hard-fails when some rule of the left entity yields
a `Violation` outcome or an unmet `Required` outcome against the right. -/
def hardFail (lhs rhs : Entity) : Bool :=
  lhs.rules.any (fun r =>
    evalRule lhs rhs r = some .violation ∨ evalRule lhs rhs r = some .required)

/-- Errors raised by `Experiment.verify` (`IncompatibleRecordError`). -/
inductive VerifyErr
  | memberViolation (modelName projName : String)
  | compatViolation (lhsName rhsName : String)
deriving DecidableEq, Repr

/-- Modelled from the spec: `Model.check_compatibility` (mvc layer, not
among the provided sources) evaluates every compat rule of the left entity
against the right; a `Violation` or unmet `Required` outcome raises
`IncompatibleRecordError`, while unmet `Recommended` / `Encouraged`
outcomes are logged as warnings and never raise. -/
def check_compatibility (lhs rhs : Entity) : Except VerifyErr Unit :=
  if hardFail lhs rhs then .error (.compatViolation lhs.name rhs.name) else .ok ()

/-- The membership loop of `Experiment.verify`: each of target,
application, measurement must list the owning project's id in its
`projects` relationship. -/
def checkMembership (proj : Entity) : List Entity → Except VerifyErr Unit
  | [] => .ok ()
  | m :: rest =>
      if proj.eid ∈ m.projects then checkMembership proj rest
      else .error (.memberViolation m.name proj.name)

/-- The pairwise loop of `Experiment.verify`, in source order. -/
def checkPairs : List (Entity × Entity) → Except VerifyErr Unit
  | [] => .ok ()
  | p :: rest =>
      match check_compatibility p.1 p.2 with
      | .error e => .error e
      | .ok _ => checkPairs rest

/-- Source `Experiment.verify` (experiment.py): membership check for target,
application, and measurement against the owning project, then the
pairwise compatibility check over all ordered pairs drawn from the three
entities. -/
def Experiment.verify (proj targ app meas : Entity) : Except VerifyErr Unit :=
  match checkMembership proj [targ, app, meas] with
  | .error e => .error e
  | .ok _ =>
      checkPairs [(targ, targ), (targ, app), (targ, meas),
                  (app, targ), (app, app), (app, meas),
                  (meas, targ), (meas, app), (meas, meas)]

/-!
### Trial run pipeline (`packages/taucmdr/model/trial.py`)

`Trial.execute_command`, `TrialController._perform_interactive` and
`TrialController.perform` are modeled over the observable facts of one
run: whether the subprocess launched and its exit code, the data files
found under the trial directory afterwards, and the measurement's
`profile` / `trace` formats.  Wall-clock times and log output are elided.
Only the interactive path is modeled (the BlueGene path needs `qsub`).
-/

/-- The `profile` / `trace` formats of the experiment's measurement. -/
structure MeasurementRec where
  profile : String
  trace : String
deriving DecidableEq, Repr

/-- The observable facts of one launched trial command. -/
structure RunInput where
  /-- Source `some code` when the subprocess ran to completion with that exit
  code; `none` when `create_subprocess` raised `OSError`. -/
  launched : Option Int
  /-- Number of profile files found under the trial directory. -/
  numProfiles : Nat
  /-- Number of those profiles carrying a negative node number. -/
  numNegProfiles : Nat
  /-- Whether renaming some negative-node profile would collide with an
  existing file. -/
  renameCollision : Bool
  /-- Number of trace files found under the trial directory. -/
  numTraces : Nat
  /-- Total size in bytes of the files under the trial directory. -/
  dataSize : Nat
deriving DecidableEq, Repr

/-- Exceptions raised while performing a trial. -/
inductive TrialErr
  | launchFailed
  | profileRenameFailed
  | noProfiles
  | noTraces
  | noData
deriving DecidableEq, Repr

/-- The phase attribute of a trial record. -/
inductive Phase
  | phaseInit
  | executing
  | completed
  | failed
deriving DecidableEq, Repr

/-- Source `Trial.execute_command` (trial.py): launch the subprocess (an `OSError`
becomes a `TrialError`); if profiles were produced, correct negative node
numbers (a rename collision raises); if none were produced but the
measurement expected profiles, raise; likewise for traces; a nonzero exit
code alone is only logged. -/
def Trial.execute_command (m : MeasurementRec) (i : RunInput) :
    Except TrialErr Int :=
  match i.launched with
  | none => .error .launchFailed
  | some retval =>
      if i.numProfiles > 0 then
        if i.numNegProfiles > 0 ∧ i.renameCollision then .error .profileRenameFailed
        else if i.numTraces = 0 ∧ m.trace ≠ "none" then .error .noTraces
        else .ok retval
      else if m.profile ≠ "none" then .error .noProfiles
      else if i.numTraces = 0 ∧ m.trace ≠ "none" then .error .noTraces
      else .ok retval

/-- Source `TrialController._perform_interactive` (trial.py): set the phase to
`executing` and run the command; if it raises, delete the trial record
(modeled by `none`) and re-raise; otherwise store the run metadata and
raise `TrialError` when the exit code is nonzero and no data at all was
produced.  The first component is the surviving trial record's phase. -/
def TrialController.perform_interactive (m : MeasurementRec) (i : RunInput) :
    Option Phase × Except TrialErr Int :=
  match Trial.execute_command m i with
  | .error e => (none, .error e)
  | .ok retval =>
      if retval ≠ 0 ∧ i.dataSize = 0 then (some .executing, .error .noData)
      else (some .executing, .ok retval)

/-- Source `TrialController.perform` (trial.py): create the record in phase
`initializing`, run the interactive path; on an exception try to mark the
record `failed` (a deleted record raises `KeyError`, which is swallowed)
and re-raise; on success mark it `completed`. -/
def TrialController.perform (m : MeasurementRec) (i : RunInput) :
    Option Phase × Except TrialErr Int :=
  match TrialController.perform_interactive m i with
  | (st, .error e) => (st.map (fun _ => Phase.failed), .error e)
  | (_, .ok retval) => (some .completed, .ok retval)

/-!
### Application immutability under use (`Application.on_update`)
-/

/-- A populated experiment record as seen by `Application.on_update`: its
name, the eid of the application it references, the `data_size` field of
each of its trials (`None` when the field is absent), and its populated
project / target / application / measurement entities for re-verification. -/
structure ExperimentRec where
  name : String
  application : Int
  trialDataSizes : List (Option Int)
  proj : Entity
  targ : Entity
  app : Entity
  meas : Entity
deriving DecidableEq, Repr

/-- Source `Experiment.data_size` (experiment.py): the sum over the experiment's
trials of `trial.get(str_data_size, 0)`. -/
def Experiment.data_size (e : ExperimentRec) : Int :=
  (e.trialDataSizes.map (fun d => d.getD 0)).sum

/-- Errors raised by `Application.on_update`. -/
inductive UpdateErr
  | immutableRecord (names : List String)
  | invalidCondition (exprName : String)
  | selectFileNotFound
deriving DecidableEq, Repr

/-- The re-verification loop of `Application.on_update`: an
`IncompatibleRecordError` from any referencing experiment's `verify`
becomes a `ConfigurationError` naming that experiment. -/
def verifyAll : List ExperimentRec → Except UpdateErr Unit
  | [] => .ok ()
  | e :: rest =>
      match Experiment.verify e.proj e.targ e.app e.meas with
      | .error _ => .error (.invalidCondition e.name)
      | .ok _ => verifyAll rest

/-- Source `Application.on_update` (application.py): find the experiments
referencing this application; if any of them has positive `data_size`,
raise `ImmutableRecordError` naming them; otherwise re-verify every
referencing experiment, then check the selective instrumentation file
(`selectFileOk` models `os.path.exists` on the `select_file` attribute,
true when the attribute is absent). -/
def Application.on_update (appEid : Int) (selectFileOk : Bool)
    (exprs : List ExperimentRec) : Except UpdateErr Unit :=
  let found := exprs.filter (fun e => e.application = appEid)
  let using_app := (found.filter (fun e => Experiment.data_size e > 0)).map (fun e => e.name)
  if using_app ≠ [] then .error (.immutableRecord using_app)
  else
    match verifyAll found with
    | .error e => .error e
    | .ok _ => if selectFileOk then .ok () else .error .selectFileNotFound

/-!
### Measurement name validation (`Measurement.onCreate`)
-/

/-- Source `string.digits + string.letters` plus dash, underscore, dot — the
character set `Measurement._valid_name` (measurement.py). -/
def valid_name_chars : List Char :=
  ("0123456789" ++ "abcdefghijklmnopqrstuvwxyz"
    ++ "ABCDEFGHIJKLMNOPQRSTUVWXYZ" ++ "-_.").toList

/-- Python `set(name) > Measurement._valid_name`: the characters of the
name form a proper superset of the valid character set. -/
def properSupersetOfValid (cs : List Char) : Bool :=
  valid_name_chars.all (fun c => cs.contains c)
    && cs.any (fun c => ¬ valid_name_chars.contains c)

/-- Every character of the name is drawn from the valid set — the rule the
spec (and the code's own error message) describe. -/
def validNameOnly (name : String) : Bool :=
  name.toList.all (fun c => valid_name_chars.contains c)

/-- The error raised by `Measurement.onCreate` (`ModelError`). -/
inductive MeasurementErr
  | invalidName (name : String)
deriving DecidableEq, Repr

/-- Source `Measurement.onCreate` (measurement.py): raise `ModelError` when
`set(self[str_name]) > Measurement._valid_name`. -/
def Measurement.onCreate (name : String) : Except MeasurementErr Unit :=
  if properSupersetOfValid name.toList then .error (.invalidName name) else .ok ()

/-!
### Trial retrieval (`Experiment.trials`)
-/

/-- A trial record as seen by `Experiment.trials`: its experiment eid, its
number, and its `begin_time` timestamp string. -/
structure TrialEntry where
  experiment : Int
  number : Int
  begin_time : String
deriving DecidableEq, Repr

/-- Source `Trial.controller(storage).one(...)` with an experiment/number
mapping: the first record of the trial table matching both fields
(TinyDB `get` semantics through the controller layers). -/
def oneTrial (tbl : List TrialEntry) (eid num : Int) : Option TrialEntry :=
  tbl.find? (fun t => t.experiment = eid ∧ t.number = num)

/-- Errors raised by `Experiment.trials` (`ConfigurationError`). -/
inductive TrialsErr
  | noSuchTrial (num : Int)
  | noTrials
deriving DecidableEq, Repr

/-- The `for num in trial_numbers` loop of `Experiment.trials`: the
accumulator is reset to `[]` at the top of every iteration, so only the
last requested number survives. -/
def trialsLoop (tbl : List TrialEntry) (eid : Int) :
    List TrialEntry → List Int → Except TrialsErr (List TrialEntry)
  | acc, [] => .ok acc
  | _, num :: rest =>
      match oneTrial tbl eid num with
      | none => .error (.noSuchTrial num)
      | some found => trialsLoop tbl eid [found] rest

/-- The `else` branch scan of `Experiment.trials`: walk the remaining
trials, replacing the candidate whenever a strictly later `begin_time` is
seen. -/
def latestTrial (first : TrialEntry) (rest : List TrialEntry) : TrialEntry :=
  rest.foldl (fun found t => if found.begin_time < t.begin_time then t else found) first

/-- Source `Experiment.trials` (experiment.py): with a truthy `trial_numbers`,
look each number up (raising on a miss) into an accumulator that is reset
each iteration; otherwise return the single trial of this experiment with
the latest `begin_time`, raising when there are none. -/
def Experiment.trials (tbl : List TrialEntry) (eid : Int)
    (trial_numbers : List Int) : Except TrialsErr (List TrialEntry) :=
  if trial_numbers.isEmpty then
    match tbl.filter (fun t => t.experiment = eid) with
    | [] => .error .noTrials
    | first :: rest => .ok [latestTrial first rest]
  else
    trialsLoop tbl eid [] trial_numbers

/-!
## Theorems
-/

/-- Helper for C2: scanning a strictly sorted list whose elements are all
at least `i`, `findGap` returns the least value `≥ i` missing from it. -/
theorem findGap_spec (l : List Int) : ∀ i : Int, l.Sorted (· < ·) →
    (∀ x ∈ l, i ≤ x) →
    i ≤ findGap i l ∧ findGap i l ∉ l ∧
      ∀ m : Int, i ≤ m → m < findGap i l → m ∈ l := by
  induction l with
  | nil =>
    intro i _ _
    refine ⟨le_refl i, by simp [findGap], ?_⟩
    intro m h1 h2
    simp [findGap] at h2
    omega
  | cons j rest ih =>
    intro i hs hge
    have hj : i ≤ j := hge j (List.mem_cons_self j rest)
    have hrest : rest.Sorted (· < ·) := hs.of_cons
    have hjx : ∀ x ∈ rest, j < x := (List.sorted_cons.mp hs).1
    by_cases hij : i = j
    · subst hij
      have heq : findGap i (i :: rest) = findGap (i + 1) rest := by
        simp [findGap]
      have hge2 : ∀ x ∈ rest, i + 1 ≤ x := fun x hx => by
        have := hjx x hx; omega
      obtain ⟨h1, h2, h3⟩ := ih (i + 1) hrest hge2
      rw [heq]
      refine ⟨by omega, ?_, ?_⟩
      · intro hmem
        rcases List.mem_cons.mp hmem with hh | hh
        · omega
        · exact h2 hh
      · intro m hm1 hm2
        by_cases hmi : m = i
        · exact hmi ▸ List.mem_cons_self i rest
        · exact List.mem_cons_of_mem i (h3 m (by omega) hm2)
    · have heq : findGap i (j :: rest) = i := by
        simp [findGap, hij]
      rw [heq]
      refine ⟨le_refl i, ?_, ?_⟩
      · intro hmem
        rcases List.mem_cons.mp hmem with hh | hh
        · exact hij hh
        · have := hjx i hh; omega
      · intro m hm1 hm2
        omega

/-- C2: for trials carrying pairwise-distinct non-negative numbers, the
next trial number is the smallest non-negative integer not already used by
a sibling trial; in particular numbers 0,1,2 with 1 deleted give 1, and
with none deleted give 3. -/
theorem c2_next_trial_number (numbers : List Int)
    (hnodup : numbers.Nodup) (hnonneg : ∀ x ∈ numbers, 0 ≤ x) :
    next_trial_number numbers ∉ numbers ∧
    0 ≤ next_trial_number numbers ∧
    (∀ m : Int, 0 ≤ m → m < next_trial_number numbers → m ∈ numbers) ∧
    next_trial_number [0, 2] = 1 ∧ next_trial_number [0, 1, 2] = 3 := by
  have hperm := List.perm_insertionSort (fun a b : Int => a ≤ b) numbers
  have hsle : (numbers.insertionSort (fun a b => a ≤ b)).Sorted (· ≤ ·) :=
    List.sorted_insertionSort (fun a b => a ≤ b) numbers
  have hnd : (numbers.insertionSort (fun a b => a ≤ b)).Nodup :=
    hperm.nodup_iff.mpr hnodup
  have hslt : (numbers.insertionSort (fun a b => a ≤ b)).Sorted (· < ·) :=
    hsle.lt_of_le hnd
  have hge : ∀ x ∈ numbers.insertionSort (fun a b => a ≤ b), (0 : Int) ≤ x :=
    fun x hx => hnonneg x (hperm.mem_iff.mp hx)
  obtain ⟨h1, h2, h3⟩ := findGap_spec (numbers.insertionSort (fun a b => a ≤ b)) 0 hslt hge
  refine ⟨?_, h1, ?_, by decide, by decide⟩
  · intro hmem
    exact h2 (hperm.mem_iff.mpr hmem)
  · intro m hm1 hm2
    exact hperm.mem_iff.mp (h3 m hm1 hm2)

/-- Witness for C2 at the gap scenario from the spec. -/
theorem c2_next_trial_number_witness : next_trial_number [0, 2] = 1 :=
  (c2_next_trial_number [0, 2] (by decide) (by decide)).2.2.2.1

/-- Helper for C1: operations that stay strictly inside an open scope
preserve the snapshot and end with the depth counter back at 1. -/
theorem runTx_inv (ops : List TxOp) : ∀ s : DBState,
    1 ≤ s.transaction_count →
    innerOps s.transaction_count ops = true →
    (runTx s ops).db_copy = s.db_copy ∧ (runTx s ops).transaction_count = 1 := by
  induction ops with
  | nil =>
    intro s h1 h2
    simp [innerOps] at h2
    simp [runTx]
    omega
  | cons op rest ih =>
    intro s h1 h2
    have hrun : runTx s (op :: rest) = runTx (txStep s op) rest := by
      simp [runTx]
    rw [hrun]
    cases op with
    | enter =>
      have hstep : txStep s TxOp.enter =
          ⟨s.disk, s.transaction_count + 1, s.db_copy⟩ := by
        simp [txStep, JsonDatabase.enterScope]
        omega
      simp only [innerOps] at h2
      rw [hstep] at *
      obtain ⟨hc, hn⟩ := ih ⟨s.disk, s.transaction_count + 1, s.db_copy⟩
        (by simp; omega) (by simpa using h2)
      exact ⟨hc, hn⟩
    | exit ex =>
      simp only [innerOps, Bool.and_eq_true, decide_eq_true_eq] at h2
      obtain ⟨hd, h2⟩ := h2
      have hstep : txStep s (TxOp.exit ex) =
          ⟨s.disk, s.transaction_count - 1, s.db_copy⟩ := by
        simp [txStep, JsonDatabase.exitScope]
        intro _
        omega
      rw [hstep]
      exact ih ⟨s.disk, s.transaction_count - 1, s.db_copy⟩ (by simp; omega)
        (by simpa using h2)
    | insert t fs =>
      simp only [innerOps] at h2
      exact ih _ (by simpa [txStep] using h1) (by simpa [txStep] using h2)
    | update t fs k ma =>
      simp only [innerOps] at h2
      exact ih _ (by simpa [txStep] using h1) (by simpa [txStep] using h2)
    | unset t ns k ma =>
      simp only [innerOps] at h2
      exact ih _ (by simpa [txStep] using h1) (by simpa [txStep] using h2)
    | remove t k ma =>
      simp only [innerOps] at h2
      exact ih _ (by simpa [txStep] using h1) (by simpa [txStep] using h2)
    | purge t =>
      simp only [innerOps] at h2
      exact ih _ (by simpa [txStep] using h1) (by simpa [txStep] using h2)

/-- C1: writes inside a transactional scope are discarded when an
exception propagates out of the outermost exit — the persisted file is
restored to its state at outermost entry; nested entries only increment
the depth counter, and a nested (non-outermost) exit never touches the
file or the snapshot. -/
theorem c1_transaction_atomicity :
    (∀ (s : DBState) (ops : List TxOp),
       s.transaction_count = 0 → innerOps 1 ops = true →
       (JsonDatabase.exitScope true (runTx (JsonDatabase.enterScope s) ops)).disk
           = s.disk ∧
       (JsonDatabase.exitScope true (runTx (JsonDatabase.enterScope s) ops)).transaction_count
           = 0) ∧
    (∀ s : DBState, s.transaction_count ≠ 0 →
       JsonDatabase.enterScope s = ⟨s.disk, s.transaction_count + 1, s.db_copy⟩) ∧
    (∀ (s : DBState) (ex : Bool), 2 ≤ s.transaction_count →
       JsonDatabase.exitScope ex s = ⟨s.disk, s.transaction_count - 1, s.db_copy⟩) := by
  refine ⟨?_, ?_, ?_⟩
  · intro s ops h0 hi
    have henter : JsonDatabase.enterScope s = ⟨s.disk, 1, some s.disk⟩ := by
      simp [JsonDatabase.enterScope, h0]
    rw [henter]
    obtain ⟨hc, hn⟩ := runTx_inv ops ⟨s.disk, 1, some s.disk⟩ (by simp) (by simpa using hi)
    constructor
    · simp [JsonDatabase.exitScope, hn, hc]
    · simp [JsonDatabase.exitScope, hn]
  · intro s h
    simp [JsonDatabase.enterScope, h]
  · intro s ex h
    simp [JsonDatabase.exitScope]
    intro _
    omega

/-- Witness for C1: an insert inside the scope plus a nested scope with an
update; the exceptional outermost exit restores the file exactly. -/
theorem c1_transaction_atomicity_witness :
    (JsonDatabase.exitScope true (runTx
        (JsonDatabase.enterScope ⟨[("application", [⟨1, [("name", Value.vstr "app1")]⟩])], 0, none⟩)
        [TxOp.insert "application" [("name", Value.vstr "app2")],
         TxOp.enter,
         TxOp.update "application" [("name", Value.vstr "renamed")] (Keys.byEid 1) false,
         TxOp.exit false,
         TxOp.remove "application" (Keys.byEid 1) false])).disk
      = [("application", [⟨1, [("name", Value.vstr "app1")]⟩])] :=
  (c1_transaction_atomicity.1 ⟨[("application", [⟨1, [("name", Value.vstr "app1")]⟩])], 0, none⟩
    [TxOp.insert "application" [("name", Value.vstr "app2")],
     TxOp.enter,
     TxOp.update "application" [("name", Value.vstr "renamed")] (Keys.byEid 1) false,
     TxOp.exit false,
     TxOp.remove "application" (Keys.byEid 1) false]
    rfl (by decide)).1

/-- Helper for C3: the membership loop fails with an
`IncompatibleRecordError` whenever some entity does not list the project. -/
theorem checkMembership_fails (proj : Entity) (l : List Entity) :
    (∃ m ∈ l, proj.eid ∉ m.projects) →
    ∃ mn pn, checkMembership proj l = .error (.memberViolation mn pn) := by
  induction l with
  | nil => rintro ⟨m, hm, _⟩; cases hm
  | cons a rest ih =>
    rintro ⟨m, hm, hnot⟩
    by_cases ha : proj.eid ∈ a.projects
    · have hstep : checkMembership proj (a :: rest) = checkMembership proj rest := by
        simp [checkMembership, ha]
      rw [hstep]
      apply ih
      rcases List.mem_cons.mp hm with rfl | h2
      · exact absurd ha hnot
      · exact ⟨m, h2, hnot⟩
    · exact ⟨a.name, proj.name, by simp [checkMembership, ha]⟩

/-- Helper for C3: the membership loop succeeds when every entity lists
the project. -/
theorem checkMembership_ok (proj : Entity) (l : List Entity)
    (h : ∀ m ∈ l, proj.eid ∈ m.projects) :
    checkMembership proj l = .ok () := by
  induction l with
  | nil => simp [checkMembership]
  | cons a rest ih =>
    have ha := h a (List.mem_cons_self a rest)
    simp [checkMembership, ha]
    exact ih (fun m hm => h m (List.mem_cons_of_mem a hm))

/-- Helper for C3: the pairwise loop succeeds exactly when no ordered pair
hard-fails. -/
theorem checkPairs_ok_iff (l : List (Entity × Entity)) :
    checkPairs l = .ok () ↔ ∀ p ∈ l, hardFail p.1 p.2 = false := by
  induction l with
  | nil => simp [checkPairs]
  | cons p rest ih =>
    by_cases h : hardFail p.1 p.2 = true
    · simp [checkPairs, check_compatibility, h]
    · have hf : hardFail p.1 p.2 = false := by simpa using h
      simp [checkPairs, check_compatibility, hf, ih]

/-- C3: `Experiment.verify` raises `IncompatibleRecordError` whenever the
owning project is absent from the `projects` relationship of target,
application, or measurement; with all three members it succeeds exactly
when no ordered pair of the three entities has a `Violation` or unmet
`Required` outcome — and unmet `Recommended` / `Encouraged` outcomes alone
never make a pair fail. -/
theorem c3_experiment_verify (proj targ app meas : Entity) :
    ((proj.eid ∉ targ.projects ∨ proj.eid ∉ app.projects ∨ proj.eid ∉ meas.projects) →
       ∃ mn pn, Experiment.verify proj targ app meas = .error (.memberViolation mn pn)) ∧
    (proj.eid ∈ targ.projects → proj.eid ∈ app.projects → proj.eid ∈ meas.projects →
       ((Experiment.verify proj targ app meas = .ok ()) ↔
         ∀ lhs ∈ [targ, app, meas], ∀ rhs ∈ [targ, app, meas],
           hardFail lhs rhs = false)) ∧
    (∀ lhs rhs : Entity,
       (∀ r ∈ lhs.rules, evalRule lhs rhs r ≠ some .violation ∧
          evalRule lhs rhs r ≠ some .required) →
       check_compatibility lhs rhs = .ok ()) := by
  refine ⟨?_, ?_, ?_⟩
  · intro h
    have hex : ∃ m ∈ [targ, app, meas], proj.eid ∉ m.projects := by
      rcases h with h | h | h
      · exact ⟨targ, by simp, h⟩
      · exact ⟨app, by simp, h⟩
      · exact ⟨meas, by simp, h⟩
    obtain ⟨mn, pn, hcm⟩ := checkMembership_fails proj [targ, app, meas] hex
    exact ⟨mn, pn, by simp [Experiment.verify, hcm]⟩
  · intro h1 h2 h3
    have hcm : checkMembership proj [targ, app, meas] = .ok () := by
      apply checkMembership_ok
      intro m hm
      rcases List.mem_cons.mp hm with rfl | hm
      · exact h1
      rcases List.mem_cons.mp hm with rfl | hm
      · exact h2
      rcases List.mem_cons.mp hm with rfl | hm
      · exact h3
      · cases hm
    have hv : Experiment.verify proj targ app meas =
        checkPairs [(targ, targ), (targ, app), (targ, meas),
                    (app, targ), (app, app), (app, meas),
                    (meas, targ), (meas, app), (meas, meas)] := by
      simp [Experiment.verify, hcm]
    rw [hv, checkPairs_ok_iff]
    constructor
    · intro hall lhs hl rhs hr
      simp only [List.mem_cons, List.not_mem_nil, or_false] at hl hr
      rcases hl with rfl | rfl | rfl <;> rcases hr with rfl | rfl | rfl <;>
        exact hall ⟨_, _⟩ (by simp)
    · intro hall p hp
      simp only [List.mem_cons, List.not_mem_nil, or_false] at hp
      rcases hp with rfl | rfl | rfl | rfl | rfl | rfl | rfl | rfl | rfl <;>
        exact hall _ (by simp) _ (by simp)
  · intro lhs rhs h
    have hf : hardFail lhs rhs = false := by
      simp only [hardFail, List.any_eq_false]
      intro r hr
      have := h r hr
      simp only [decide_eq_true_eq]
      push_neg
      exact this
    simp [check_compatibility, hf]

/-- Witness for C3: all three entities belong to project 1 and the
measurement carries one unmet `Recommended` rule against the target, so
verification succeeds. -/
theorem c3_experiment_verify_witness :
    Experiment.verify
      ⟨1, .target, "p1", [], [], []⟩
      ⟨2, .target, "t1", [1], [("pdt_source", Value.vstr "download")], []⟩
      ⟨3, .application, "a1", [1], [("mpi", Value.vbool false)], []⟩
      ⟨4, .measurement, "m1", [1], [("compiler_inst", Value.vstr "fallback")],
        [⟨"compiler_inst", Value.vstr "fallback", .target, "bfd_source", none, .recommended⟩]⟩
      = .ok () :=
  ((c3_experiment_verify
      ⟨1, .target, "p1", [], [], []⟩
      ⟨2, .target, "t1", [1], [("pdt_source", Value.vstr "download")], []⟩
      ⟨3, .application, "a1", [1], [("mpi", Value.vbool false)], []⟩
      ⟨4, .measurement, "m1", [1], [("compiler_inst", Value.vstr "fallback")],
        [⟨"compiler_inst", Value.vstr "fallback", .target, "bfd_source", none, .recommended⟩]⟩).2.1
    (by decide) (by decide) (by decide)).mpr (by decide)

/-- Helper for C4/C5: a successful `execute_command` returns exactly the
exit code of the launched subprocess. -/
theorem execute_command_ok_launched (m : MeasurementRec) (i : RunInput) (v : Int)
    (h : Trial.execute_command m i = .ok v) : i.launched = some v := by
  cases hl : i.launched with
  | none => simp [Trial.execute_command, hl] at h
  | some r =>
    simp only [Trial.execute_command, hl] at h
    split at h
    · split at h
      · exact absurd h (by simp)
      · split at h
        · exact absurd h (by simp)
        · simp only [Except.ok.injEq] at h
          rw [h]
    · split at h
      · exact absurd h (by simp)
      · split at h
        · exact absurd h (by simp)
        · simp only [Except.ok.injEq] at h
          rw [h]

/-- C4 counterexample: the command launches and exits with code 1, the
measurement expects neither profiles nor traces, and no data is produced;
the claim predicts phase `completed`, but the trial ends `failed`. -/
theorem c4_counterexample :
    (RunInput.mk (some 1) 0 0 false 0 0).launched = some 1 ∧
    (MeasurementRec.mk "none" "none").profile = "none" ∧
    (MeasurementRec.mk "none" "none").trace = "none" ∧
    (TrialController.perform ⟨"none", "none"⟩ ⟨some 1, 0, 0, false, 0, 0⟩).1
        = some Phase.failed ∧
    (TrialController.perform ⟨"none", "none"⟩ ⟨some 1, 0, 0, false, 0, 0⟩).1
        ≠ some Phase.completed := by decide

/-- C4 (amended): after a successful launch the trial ends `completed`
exactly when `execute_command` succeeds (expected profiles and traces
present, negative-node profiles correctable) and it is not the case that
the exit code is nonzero with zero bytes of data; an `execute_command`
failure deletes the record, and a nonzero exit with zero data leaves the
record in phase `failed` with a `TrialError`. -/
theorem c4_completed_condition (m : MeasurementRec) (i : RunInput) (retval : Int)
    (h : i.launched = some retval) :
    ((TrialController.perform m i).1 = some Phase.completed ↔
       (Trial.execute_command m i = .ok retval ∧ ¬ (retval ≠ 0 ∧ i.dataSize = 0))) ∧
    ((Trial.execute_command m i).isOk = false → (TrialController.perform m i).1 = none) ∧
    (Trial.execute_command m i = .ok retval → retval ≠ 0 → i.dataSize = 0 →
       TrialController.perform m i = (some Phase.failed, .error .noData)) := by
  cases hec : Trial.execute_command m i with
  | error e =>
    refine ⟨?_, ?_, ?_⟩
    · simp [TrialController.perform, TrialController.perform_interactive, hec]
    · intro _
      simp [TrialController.perform, TrialController.perform_interactive, hec]
    · intro hok
      exact absurd hok (by simp)
  | ok v =>
    have hv : v = retval := by
      have hlv := execute_command_ok_launched m i v hec
      rw [h] at hlv
      exact (Option.some.inj hlv).symm
    subst hv
    by_cases hz : v ≠ 0 ∧ i.dataSize = 0
    · refine ⟨?_, ?_, ?_⟩
      · simp [TrialController.perform, TrialController.perform_interactive, hec, hz]
      · intro hfalse
        simp [Except.isOk, Except.toBool] at hfalse
      · intro _ _ _
        simp [TrialController.perform, TrialController.perform_interactive, hec, hz]
    · refine ⟨?_, ?_, ?_⟩
      · simp [TrialController.perform, TrialController.perform_interactive, hec, hz]
      · intro hfalse
        simp [Except.isOk, Except.toBool] at hfalse
      · intro _ hnz hds
        exact absurd ⟨hnz, hds⟩ hz

/-- Witness for C4: a clean run with exit code 0 and expected profiles
present ends in phase `completed`. -/
theorem c4_completed_condition_witness :
    (TrialController.perform ⟨"tau", "none"⟩ ⟨some 0, 3, 0, false, 0, 5⟩).1
        = some Phase.completed :=
  (c4_completed_condition ⟨"tau", "none"⟩ ⟨some 0, 3, 0, false, 0, 5⟩ 0 rfl).1.mpr
    (by decide)

/-- C5 counterexample: the launch fails (`OSError` from
`create_subprocess`), the controller deletes the trial record, and the
error propagates — no record with phase `failed` persists, contradicting
the claim. -/
theorem c5_counterexample :
    (TrialController.perform ⟨"tau", "none"⟩ ⟨none, 0, 0, false, 0, 0⟩).1 = none ∧
    (TrialController.perform ⟨"tau", "none"⟩ ⟨none, 0, 0, false, 0, 0⟩).2
        = .error TrialErr.launchFailed := by decide

/-- C5 (amended): when the launch or the execution raises, the trial
record is deleted before the original error re-propagates, so no record
persists; only an error raised after execution completed — a nonzero exit
that produced no data — leaves the record persisted in phase `failed`
before the error re-propagates. -/
theorem c5_failure_handling (m : MeasurementRec) (i : RunInput) :
    (∀ e : TrialErr, Trial.execute_command m i = .error e →
       TrialController.perform m i = (none, .error e)) ∧
    (∀ retval : Int, Trial.execute_command m i = .ok retval → retval ≠ 0 →
       i.dataSize = 0 →
       TrialController.perform m i = (some Phase.failed, .error .noData)) := by
  constructor
  · intro e he
    simp [TrialController.perform, TrialController.perform_interactive, he]
  · intro retval hok hnz hds
    have hz : retval ≠ 0 ∧ i.dataSize = 0 := ⟨hnz, hds⟩
    simp [TrialController.perform, TrialController.perform_interactive, hok, hz]

/-- Witness for C5: a run that launched, exited nonzero, and produced no
data is persisted in phase `failed` with the `TrialError` propagating. -/
theorem c5_failure_handling_witness :
    TrialController.perform ⟨"none", "none"⟩ ⟨some 2, 0, 0, false, 0, 0⟩
        = (some Phase.failed, .error TrialErr.noData) :=
  (c5_failure_handling ⟨"none", "none"⟩ ⟨some 2, 0, 0, false, 0, 0⟩).2 2
    (by decide) (by decide) (by decide)

/-- Helper for C6: the re-verification loop succeeds exactly when every
referencing experiment verifies. -/
theorem verifyAll_ok_iff (l : List ExperimentRec) :
    verifyAll l = .ok () ↔
      ∀ e ∈ l, Experiment.verify e.proj e.targ e.app e.meas = .ok () := by
  induction l with
  | nil => simp [verifyAll]
  | cons e rest ih =>
    cases hv : Experiment.verify e.proj e.targ e.app e.meas with
    | error err => simp [verifyAll, hv]
    | ok u =>
      cases u
      simp [verifyAll, hv, ih]

/-- C6 counterexample: an application referenced by an experiment with one
recorded trial whose `data_size` is 0 can still be updated — the claim
predicts `ImmutableRecordError` for any experiment with at least one
trial. -/
theorem c6_counterexample :
    (ExperimentRec.mk "e1" 3 [some 0]
        ⟨1, .target, "p1", [], [], []⟩ ⟨2, .target, "t1", [1], [], []⟩
        ⟨3, .application, "a1", [1], [], []⟩
        ⟨4, .measurement, "m1", [1], [], []⟩).trialDataSizes.length = 1 ∧
    Application.on_update 3 true
        [⟨"e1", 3, [some 0],
          ⟨1, .target, "p1", [], [], []⟩, ⟨2, .target, "t1", [1], [], []⟩,
          ⟨3, .application, "a1", [1], [], []⟩,
          ⟨4, .measurement, "m1", [1], [], []⟩⟩] = .ok () := by decide

/-- C6 (amended): updating an Application fails with
`ImmutableRecordError` exactly when some referencing experiment has
positive total trial data size; when every referencing experiment's data
size is non-positive (in particular when it has zero trials), the update
succeeds if and only if every referencing experiment re-verifies and the
selective instrumentation file check passes. -/
theorem c6_on_update_data_size (appEid : Int) (sOk : Bool)
    (exprs : List ExperimentRec) :
    ((∃ e ∈ exprs.filter (fun e => e.application = appEid),
        Experiment.data_size e > 0) →
       Application.on_update appEid sOk exprs =
         .error (.immutableRecord
           (((exprs.filter (fun e => e.application = appEid)).filter
               (fun e => Experiment.data_size e > 0)).map (fun e => e.name)))) ∧
    ((∀ e ∈ exprs.filter (fun e => e.application = appEid),
        Experiment.data_size e ≤ 0) →
       (Application.on_update appEid sOk exprs = .ok () ↔
         ((∀ e ∈ exprs.filter (fun e => e.application = appEid),
             Experiment.verify e.proj e.targ e.app e.meas = .ok ()) ∧
          sOk = true))) := by
  constructor
  · rintro ⟨e, he, hds⟩
    have hmem : e ∈ (exprs.filter (fun e => e.application = appEid)).filter
        (fun e => Experiment.data_size e > 0) :=
      List.mem_filter.mpr ⟨he, by simpa using hds⟩
    have hne : ((exprs.filter (fun e => e.application = appEid)).filter
        (fun e => Experiment.data_size e > 0)).map (fun e => e.name) ≠ [] := by
      simp only [ne_eq, List.map_eq_nil_iff]
      exact List.ne_nil_of_mem hmem
    simp only [Application.on_update]
    rw [if_pos hne]
  · intro hall
    have hemp : (exprs.filter (fun e => e.application = appEid)).filter
        (fun e => Experiment.data_size e > 0) = [] := by
      apply List.filter_eq_nil_iff.mpr
      intro e he
      simp only [decide_eq_true_eq, gt_iff_lt, not_lt]
      exact hall e he
    have hred : Application.on_update appEid sOk exprs =
        (match verifyAll (exprs.filter (fun e => e.application = appEid)) with
         | .error err => .error err
         | .ok _ => if sOk then .ok ()
                    else .error UpdateErr.selectFileNotFound) := by
      simp [Application.on_update, hemp]
    rw [hred]
    cases hva : verifyAll (exprs.filter (fun e => e.application = appEid)) with
    | error err =>
      constructor
      · intro hcon
        exact absurd hcon (by simp)
      · rintro ⟨hforall, _⟩
        have hok := (verifyAll_ok_iff _).mpr hforall
        rw [hva] at hok
        exact absurd hok (by simp)
    | ok u =>
      cases u
      have hforall := (verifyAll_ok_iff
        (exprs.filter (fun e => e.application = appEid))).mp hva
      cases sOk with
      | true =>
        constructor
        · intro _
          exact ⟨hforall, rfl⟩
        · intro _
          rfl
      | false =>
        constructor
        · intro hcon
          exact absurd hcon (by simp)
        · rintro ⟨_, hfalse⟩
          cases hfalse

/-- Witness for C6: the same experiment with one zero-size trial passes
re-verification, so the update goes through. -/
theorem c6_on_update_data_size_witness :
    Application.on_update 3 true
        [⟨"e1", 3, [some 0],
          ⟨1, .target, "p1", [], [], []⟩, ⟨2, .target, "t1", [1], [], []⟩,
          ⟨3, .application, "a1", [1], [], []⟩,
          ⟨4, .measurement, "m1", [1], [], []⟩⟩] = .ok () :=
  ((c6_on_update_data_size 3 true
      [⟨"e1", 3, [some 0],
        ⟨1, .target, "p1", [], [], []⟩, ⟨2, .target, "t1", [1], [], []⟩,
        ⟨3, .application, "a1", [1], [], []⟩,
        ⟨4, .measurement, "m1", [1], [], []⟩⟩]).2 (by decide)).mpr (by decide)

/-- C7: the name check in `Measurement.onCreate` uses the proper-superset
comparison `set(name) > valid` instead of a subset test, so the name
`a!` — which contains the invalid character `!` — is accepted, while the
code's own error message (and the spec) require rejecting any name with a
character outside letters, digits, dot, dash, underscore.  Names drawn
only from the valid set are accepted, as the claim also states. -/
theorem c7_name_validation_bug :
    validNameOnly "a!" = false ∧
    Measurement.onCreate "a!" = .ok () ∧
    validNameOnly "mpi-profile_1.x" = true ∧
    Measurement.onCreate "mpi-profile_1.x" = .ok () := by decide

/-- C8 counterexample: `get` with the `keys` argument absent raises
`AssertionError` on a non-empty table instead of matching every record. -/
theorem c8_counterexample :
    ([Record.mk 1 [("name", Value.vstr "x")]] : Table) ≠ [] ∧
    JsonDatabase.get [Record.mk 1 [("name", Value.vstr "x")]] Keys.noKeys false
        = .error DbErr.assertionFailed := by decide

/-- C8 (amended): the accepted `keys` forms differ per operation — `get`
accepts a single id or a non-empty mapping but rejects absent and
list-of-ids forms; `search` accepts absent (matching everything) and a
mapping; `contains`, `update`, `unset` and `remove` accept id, id-list and
mapping forms, while an absent `keys` matches nothing for them
(`contains` answers `False`; the write operations change no record). -/
theorem c8_keys_forms (tbl : Table) (n : Int) (l : List Int) (km : Fields)
    (ma : Bool) (hkm : km ≠ []) :
    ((JsonDatabase.get tbl (.byEid n) ma).isOk = true ∧
     (JsonDatabase.get tbl (.byFields km) ma).isOk = true ∧
     (JsonDatabase.get tbl .noKeys ma).isOk = false ∧
     (JsonDatabase.get tbl (.byEids l) ma).isOk = false) ∧
    (JsonDatabase.search tbl .noKeys ma = .ok tbl ∧
     (JsonDatabase.search tbl (.byFields km) ma).isOk = true) ∧
    ((JsonDatabase.contains tbl (.byEid n) ma).isOk = true ∧
     (JsonDatabase.contains tbl (.byEids l) ma).isOk = true ∧
     (JsonDatabase.contains tbl (.byFields km) ma).isOk = true ∧
     JsonDatabase.contains tbl .noKeys ma = .ok false) ∧
    (∀ fs : Fields,
       (JsonDatabase.update tbl fs (.byEid n) ma).isOk = true ∧
       (JsonDatabase.update tbl fs (.byEids l) ma).isOk = true ∧
       (JsonDatabase.update tbl fs (.byFields km) ma).isOk = true ∧
       JsonDatabase.update tbl fs .noKeys ma = .ok tbl) ∧
    (∀ ns : List String,
       (JsonDatabase.unset tbl ns (.byEid n) ma).isOk = true ∧
       (JsonDatabase.unset tbl ns (.byEids l) ma).isOk = true ∧
       (JsonDatabase.unset tbl ns (.byFields km) ma).isOk = true ∧
       JsonDatabase.unset tbl ns .noKeys ma = .ok tbl) ∧
    ((JsonDatabase.remove tbl (.byEid n) ma).isOk = true ∧
     (JsonDatabase.remove tbl (.byEids l) ma).isOk = true ∧
     (JsonDatabase.remove tbl (.byFields km) ma).isOk = true ∧
     JsonDatabase.remove tbl .noKeys ma = .ok tbl) := by
  have hk : km.isEmpty = false := by
    cases km with
    | nil => exact absurd rfl hkm
    | cons a as => rfl
  refine ⟨?_, ?_, ?_, ?_, ?_, ?_⟩
  · simp [JsonDatabase.get, hk, Except.isOk, Except.toBool]
  · simp [JsonDatabase.search, hk, Except.isOk, Except.toBool]
  · simp [JsonDatabase.contains, hk, Except.isOk, Except.toBool]
  · intro fs
    simp [JsonDatabase.update, hk, Except.isOk, Except.toBool]
  · intro ns
    simp [JsonDatabase.unset, hk, Except.isOk, Except.toBool]
  · simp [JsonDatabase.remove, hk, Except.isOk, Except.toBool]

/-- Witness for C8 on a one-record table with a one-field mapping. -/
theorem c8_keys_forms_witness :
    JsonDatabase.search [Record.mk 1 [("name", Value.vstr "x")]] Keys.noKeys false
        = .ok [Record.mk 1 [("name", Value.vstr "x")]] ∧
    JsonDatabase.contains [Record.mk 1 [("name", Value.vstr "x")]] Keys.noKeys false
        = .ok false :=
  ⟨(c8_keys_forms [Record.mk 1 [("name", Value.vstr "x")]] 1 [1]
      [("name", Value.vstr "x")] false (by decide)).2.1.1,
   (c8_keys_forms [Record.mk 1 [("name", Value.vstr "x")]] 1 [1]
      [("name", Value.vstr "x")] false (by decide)).2.2.1.2.2.2⟩
/-- Helper for C10: when every requested number resolves, the loop returns
the singleton list holding the record for the last requested number. -/
theorem trialsLoop_last (tbl : List TrialEntry) (eid : Int) :
    ∀ (nums : List Int) (h : nums ≠ []) (acc : List TrialEntry),
      (∀ n ∈ nums, (oneTrial tbl eid n).isSome) →
      ∃ r, oneTrial tbl eid (nums.getLast h) = some r ∧
           trialsLoop tbl eid acc nums = .ok [r] := by
  intro nums
  induction nums with
  | nil => intro h; exact absurd rfl h
  | cons n rest ih =>
    intro h acc hall
    have hn : (oneTrial tbl eid n).isSome := hall n (List.mem_cons_self n rest)
    obtain ⟨found, hfound⟩ := Option.isSome_iff_exists.mp hn
    by_cases hrest : rest = []
    · subst hrest
      refine ⟨found, ?_, ?_⟩
      · simpa using hfound
      · simp [trialsLoop, hfound]
    · have hall2 : ∀ k ∈ rest, (oneTrial tbl eid k).isSome := fun k hk =>
        hall k (List.mem_cons_of_mem n hk)
      obtain ⟨r, hr1, hr2⟩ := ih hrest [found] hall2
      refine ⟨r, ?_, ?_⟩
      · rw [List.getLast_cons hrest]
        exact hr1
      · simp only [trialsLoop, hfound]
        exact hr2

/-- Helper for C10: the scan of the `else` branch returns a member of the
list that no other member strictly exceeds in `begin_time`. -/
theorem latestTrial_spec (rest : List TrialEntry) : ∀ first : TrialEntry,
    latestTrial first rest ∈ first :: rest ∧
    ¬ (latestTrial first rest).begin_time < first.begin_time ∧
    ∀ t ∈ rest, ¬ (latestTrial first rest).begin_time < t.begin_time := by
  induction rest with
  | nil =>
    intro first
    refine ⟨by simp [latestTrial], by simp [latestTrial], by simp⟩
  | cons t rs ih =>
    intro first
    by_cases hlt : first.begin_time < t.begin_time
    · have heq : latestTrial first (t :: rs) = latestTrial t rs := by
        unfold latestTrial
        rw [List.foldl_cons, if_pos hlt]
      obtain ⟨hmem, hge, hall⟩ := ih t
      refine ⟨?_, ?_, ?_⟩
      · rw [heq]
        exact List.mem_cons_of_mem first hmem
      · rw [heq]
        intro hcon
        exact hge (lt_trans hcon hlt)
      · intro u hu
        rw [heq]
        rcases List.mem_cons.mp hu with rfl | hh
        · exact hge
        · exact hall u hh
    · have heq : latestTrial first (t :: rs) = latestTrial first rs := by
        unfold latestTrial
        rw [List.foldl_cons, if_neg hlt]
      obtain ⟨hmem, hge, hall⟩ := ih first
      refine ⟨?_, ?_, ?_⟩
      · rw [heq]
        rcases List.mem_cons.mp hmem with hh | hh
        · rw [hh]
          exact List.mem_cons_self first (t :: rs)
        · exact List.mem_cons_of_mem first (List.mem_cons_of_mem t hh)
      · rw [heq]
        exact hge
      · intro u hu
        rw [heq]
        rcases List.mem_cons.mp hu with rfl | hh
        · intro hcon
          exact hlt (lt_of_le_of_lt (not_lt.mp hge) hcon)
        · exact hall u hh

/-- C10: every non-raising call to `Experiment.trials` returns exactly one
trial record — with a non-empty list of resolvable numbers it is the
record of the last requested number only, and with no numbers it is the
trial of this experiment that no sibling strictly exceeds in
`begin_time`. -/
theorem c10_trials_single_record (tbl : List TrialEntry) (eid : Int) :
    (∀ (nums : List Int) (h : nums ≠ []),
       (∀ n ∈ nums, (oneTrial tbl eid n).isSome) →
       ∃ r, oneTrial tbl eid (nums.getLast h) = some r ∧
            Experiment.trials tbl eid nums = .ok [r]) ∧
    (tbl.filter (fun t => t.experiment = eid) ≠ [] →
       ∃ r, Experiment.trials tbl eid [] = .ok [r] ∧
            r ∈ tbl.filter (fun t => t.experiment = eid) ∧
            ∀ t ∈ tbl.filter (fun t => t.experiment = eid),
              ¬ r.begin_time < t.begin_time) := by
  constructor
  · intro nums h hall
    obtain ⟨r, h1, h2⟩ := trialsLoop_last tbl eid nums h [] hall
    have hne : nums.isEmpty = false := by
      cases nums with
      | nil => exact absurd rfl h
      | cons a as => rfl
    refine ⟨r, h1, ?_⟩
    rw [Experiment.trials, hne]
    simpa using h2
  · intro hne
    cases hfil : tbl.filter (fun t => t.experiment = eid) with
    | nil => exact absurd hfil hne
    | cons first rest =>
      obtain ⟨hmem, hge, hall⟩ := latestTrial_spec rest first
      refine ⟨latestTrial first rest, ?_, hmem, ?_⟩
      · rw [Experiment.trials]
        simp [hfil]
      · intro t ht
        rcases List.mem_cons.mp ht with rfl | hh
        · exact hge
        · exact hall t hh

/-- Witness for C10: a table with three trials of experiment 1; requesting
numbers 0 and 2 yields only trial 2, and requesting none yields trial 1,
the one with the latest `begin_time`. -/
theorem c10_trials_single_record_witness :
    Experiment.trials
        [TrialEntry.mk 1 0 "a", TrialEntry.mk 1 1 "c",
         TrialEntry.mk 1 2 "b", TrialEntry.mk 2 0 "z"] 1 [0, 2]
      = .ok [TrialEntry.mk 1 2 "b"] ∧
    Experiment.trials
        [TrialEntry.mk 1 0 "a", TrialEntry.mk 1 1 "c",
         TrialEntry.mk 1 2 "b", TrialEntry.mk 2 0 "z"] 1 []
      = .ok [TrialEntry.mk 1 1 "c"] := by
  constructor
  · obtain ⟨r, hr1, hr2⟩ :=
      (c10_trials_single_record
        [TrialEntry.mk 1 0 "a", TrialEntry.mk 1 1 "c",
         TrialEntry.mk 1 2 "b", TrialEntry.mk 2 0 "z"] 1).1
        [0, 2] (by decide) (by decide)
    have hg : ∀ hx : ([0, 2] : List Int) ≠ [],
        ([0, 2] : List Int).getLast hx = 2 := fun _ => rfl
    rw [hg] at hr1
    have hv : oneTrial
        [TrialEntry.mk 1 0 "a", TrialEntry.mk 1 1 "c",
         TrialEntry.mk 1 2 "b", TrialEntry.mk 2 0 "z"] 1 2
        = some (TrialEntry.mk 1 2 "b") := by decide
    rw [hv] at hr1
    rw [← Option.some.inj hr1] at hr2
    exact hr2
  · obtain ⟨r, hr1, hr2, hr3⟩ :=
      (c10_trials_single_record
        [TrialEntry.mk 1 0 "a", TrialEntry.mk 1 1 "c",
         TrialEntry.mk 1 2 "b", TrialEntry.mk 2 0 "z"] 1).2 (by decide)
    have hfil : ([TrialEntry.mk 1 0 "a", TrialEntry.mk 1 1 "c",
         TrialEntry.mk 1 2 "b", TrialEntry.mk 2 0 "z"]).filter
           (fun t => t.experiment = 1)
         = [TrialEntry.mk 1 0 "a", TrialEntry.mk 1 1 "c", TrialEntry.mk 1 2 "b"] := by
      decide
    rw [hfil] at hr2 hr3
    have hrc : r = TrialEntry.mk 1 1 "c" := by
      have hc := hr3 (TrialEntry.mk 1 1 "c") (by simp)
      rcases List.mem_cons.mp hr2 with rfl | hr2
      · exact absurd (String.lt_iff_toList_lt.mpr (by decide)) hc
      rcases List.mem_cons.mp hr2 with rfl | hr2
      · rfl
      rcases List.mem_cons.mp hr2 with rfl | hr2
      · exact absurd (String.lt_iff_toList_lt.mpr (by decide)) hc
      · cases hr2
    rw [hrc] at hr1
    exact hr1
